import Mathlib

/-!
Verification development for this repository.

Part A models the BoundedMemoCache component described by the specification
(a fixed-capacity LRU key/value store); its implementation file is not among
the sources, so the definitions are modelled from the specification text.

Part B is a shallow embedding of `src/app.js`: JavaScript values, the
`InputValidator` checks, the `QualityDataProcessor` methods (with the
`try/catch` result objects rendered as `Except` plus an explicit
`processedCount` state), and the `QualityApplication` lifecycle.
-/

set_option autoImplicit false

/-- Modelled from the spec: lookup in the ordered entry list (first match),
used by `get` and `set` of the BoundedMemoCache, whose source file is not in
the repository snapshot. -/
def lookupKey : List (String × Int) → String → Option Int
  | [], _ => none
  | e :: rest, k => if e.1 = k then some e.2 else lookupKey rest k

/-- Modelled from the spec: remove the (unique) entry with the given key from
the ordered entry list. -/
def removeKey : List (String × Int) → String → List (String × Int)
  | [], _ => []
  | e :: rest, k => if e.1 = k then rest else e :: removeKey rest k

/-- Modelled from the spec: a fixed-capacity key/value store.  `entries` is
ordered by recency, least-recently-used first and most-recently-used last. -/
structure BoundedMemoCache where
  capacity : Nat
  entries : List (String × Int)
deriving DecidableEq, Repr

/-- Modelled from the spec: construction with a capacity and no entries. -/
def mkCache (capacity : Nat) : BoundedMemoCache :=
  ⟨capacity, []⟩

/-- Modelled from the spec: `get(key)` returns the value and marks the entry
most-recently-used when present (moves it to the end), and returns an explicit
absent marker (`none`) with no side effect on miss. -/
def BoundedMemoCache.get (c : BoundedMemoCache) (k : String) :
    Option Int × BoundedMemoCache :=
  match lookupKey c.entries k with
  | some v => (some v, ⟨c.capacity, removeKey c.entries k ++ [(k, v)]⟩)
  | none => (none, c)

/-- Modelled from the spec: `set(key, value)` updates an existing key in place
(marking it most-recently-used); for a new key it evicts the
least-recently-used entry (the list head) exactly when the cache is full, then
inserts at the most-recently-used end. -/
def BoundedMemoCache.set (c : BoundedMemoCache) (k : String) (v : Int) :
    BoundedMemoCache :=
  if (lookupKey c.entries k).isSome then
    ⟨c.capacity, removeKey c.entries k ++ [(k, v)]⟩
  else if c.entries.length = c.capacity then
    ⟨c.capacity, c.entries.tail ++ [(k, v)]⟩
  else
    ⟨c.capacity, c.entries ++ [(k, v)]⟩

/-- A cache operation: a `get` with some key, or a `set` with key and value. -/
inductive CacheOp where
  | opGet (k : String)
  | opSet (k : String) (v : Int)
deriving DecidableEq, Repr

/-- Apply one operation to the cache, keeping only the cache state. -/
def BoundedMemoCache.applyOp (c : BoundedMemoCache) : CacheOp → BoundedMemoCache
  | .opGet k => (c.get k).2
  | .opSet k v => c.set k v

/-- Apply a sequence of operations, left to right. -/
def BoundedMemoCache.applyOps (c : BoundedMemoCache) (ops : List CacheOp) :
    BoundedMemoCache :=
  ops.foldl BoundedMemoCache.applyOp c

/-- Apply a sequence of `set` calls, left to right. -/
def setList (c : BoundedMemoCache) (kvs : List (String × Int)) : BoundedMemoCache :=
  kvs.foldl (fun c kv => c.set kv.1 kv.2) c

theorem lookupKey_eq_none_iff (l : List (String × Int)) (k : String) :
    lookupKey l k = none ↔ k ∉ l.map Prod.fst := by
  induction l with
  | nil => simp [lookupKey]
  | cons e rest ih =>
    by_cases h : e.1 = k
    · simp [lookupKey, h]
    · simp only [lookupKey, if_neg h, ih, List.map_cons, List.mem_cons]
      constructor
      · rintro hn (h1 | h2)
        · exact h h1.symm
        · exact hn h2
      · intro hn h2
        exact hn (Or.inr h2)

theorem lookupKey_isSome_iff (l : List (String × Int)) (k : String) :
    (lookupKey l k).isSome = true ↔ k ∈ l.map Prod.fst := by
  rw [Option.isSome_iff_ne_none, ne_eq, lookupKey_eq_none_iff, not_not]

theorem lookupKey_eq_some_mem {l : List (String × Int)} {k : String} {v : Int}
    (h : lookupKey l k = some v) : k ∈ l.map Prod.fst := by
  rw [← lookupKey_isSome_iff, h]
  rfl

theorem removeKey_length_of_mem {l : List (String × Int)} {k : String}
    (h : k ∈ l.map Prod.fst) : (removeKey l k).length + 1 = l.length := by
  induction l with
  | nil => simp at h
  | cons e rest ih =>
    by_cases he : e.1 = k
    · simp [removeKey, he]
    · have hr : k ∈ rest.map Prod.fst := by
        rw [List.map_cons, List.mem_cons] at h
        rcases h with h1 | h2
        · exact absurd h1.symm he
        · exact h2
      simp [removeKey, he, ih hr]

theorem removeKey_keys_subset (l : List (String × Int)) (k : String) :
    (removeKey l k).map Prod.fst ⊆ l.map Prod.fst := by
  induction l with
  | nil => simp [removeKey]
  | cons e rest ih =>
    by_cases he : e.1 = k
    · simp only [removeKey, if_pos he, List.map_cons]
      exact List.subset_cons_of_subset _ (List.Subset.refl _)
    · simp only [removeKey, if_neg he, List.map_cons]
      exact List.cons_subset_cons _ ih

theorem set_capacity (c : BoundedMemoCache) (k : String) (v : Int) :
    (c.set k v).capacity = c.capacity := by
  unfold BoundedMemoCache.set
  split
  · rfl
  · split <;> rfl

theorem get_capacity (c : BoundedMemoCache) (k : String) :
    ((c.get k).2).capacity = c.capacity := by
  unfold BoundedMemoCache.get
  split <;> rfl

theorem get_length (c : BoundedMemoCache) (k : String) :
    ((c.get k).2).entries.length = c.entries.length := by
  unfold BoundedMemoCache.get
  split
  · next v hv =>
    have hm := lookupKey_eq_some_mem hv
    have := removeKey_length_of_mem hm
    simp only []
    rw [List.length_append]
    simpa using this
  · rfl

theorem set_length_le (c : BoundedMemoCache) (k : String) (v : Int)
    (hcap : 0 < c.capacity) (hlen : c.entries.length ≤ c.capacity) :
    (c.set k v).entries.length ≤ c.capacity := by
  unfold BoundedMemoCache.set
  split
  · next hs =>
    have hm : k ∈ c.entries.map Prod.fst := (lookupKey_isSome_iff _ _).mp hs
    have := removeKey_length_of_mem hm
    simp only [List.length_append, List.length_cons, List.length_nil]
    omega
  · split
    · next heq =>
      simp only [List.length_append, List.length_tail, List.length_cons,
        List.length_nil]
      omega
    · next hne =>
      simp only [List.length_append, List.length_cons, List.length_nil]
      omega

theorem lookupKey_of_mem_nodup {l : List (String × Int)} {kv : String × Int}
    (hnd : (l.map Prod.fst).Nodup) (h : kv ∈ l) :
    lookupKey l kv.1 = some kv.2 := by
  induction l with
  | nil => simp at h
  | cons e rest ih =>
    rw [List.map_cons, List.nodup_cons] at hnd
    rcases List.mem_cons.mp h with h1 | h2
    · subst h1
      simp [lookupKey]
    · have hne : e.1 ≠ kv.1 := by
        intro hcontra
        exact hnd.1 (hcontra ▸ List.mem_map_of_mem Prod.fst h2)
      simp [lookupKey, hne, ih hnd.2 h2]

theorem lookupKey_append_of_not_mem {l1 : List (String × Int)} {k : String}
    (l2 : List (String × Int)) (h : k ∉ l1.map Prod.fst) :
    lookupKey (l1 ++ l2) k = lookupKey l2 k := by
  induction l1 with
  | nil => simp
  | cons e rest ih =>
    rw [List.map_cons, List.mem_cons] at h
    push_neg at h
    obtain ⟨h1, h2⟩ := h
    have hne : e.1 ≠ k := fun he => h1 he.symm
    simp only [List.cons_append, lookupKey, if_neg hne]
    exact ih h2

theorem not_mem_removeKey_of_nodup {l : List (String × Int)} {k : String}
    (hnd : (l.map Prod.fst).Nodup) : k ∉ (removeKey l k).map Prod.fst := by
  induction l with
  | nil => simp [removeKey]
  | cons e rest ih =>
    rw [List.map_cons, List.nodup_cons] at hnd
    by_cases he : e.1 = k
    · rw [removeKey, if_pos he]
      exact he ▸ hnd.1
    · rw [removeKey, if_neg he, List.map_cons, List.mem_cons]
      rintro (h1 | h2)
      · exact he h1.symm
      · exact ih hnd.2 h2

theorem setList_cons (c : BoundedMemoCache) (kv : String × Int)
    (rest : List (String × Int)) :
    setList c (kv :: rest) = setList (c.set kv.1 kv.2) rest := rfl

theorem set_fresh_entries (c : BoundedMemoCache) (k : String) (v : Int)
    (h : k ∉ c.entries.map Prod.fst) :
    (c.set k v).entries =
      if c.entries.length = c.capacity then c.entries.tail ++ [(k, v)]
      else c.entries ++ [(k, v)] := by
  have hn : lookupKey c.entries k = none := (lookupKey_eq_none_iff _ _).mpr h
  unfold BoundedMemoCache.set
  rw [hn]
  simp only [Option.isSome_none, Bool.false_eq_true, if_false]
  split <;> rfl

theorem setList_fresh (kvs : List (String × Int)) (c : BoundedMemoCache)
    (hcap : 0 < c.capacity)
    (hlen : c.entries.length ≤ c.capacity)
    (hfresh : ∀ kv ∈ kvs, kv.1 ∉ c.entries.map Prod.fst)
    (hnd : (kvs.map Prod.fst).Nodup) :
    (setList c kvs).entries =
      (c.entries ++ kvs).drop (c.entries.length + kvs.length - c.capacity) := by
  induction kvs generalizing c with
  | nil =>
    simp only [setList, List.foldl_nil, List.append_nil, List.length_nil,
      Nat.add_zero]
    rw [Nat.sub_eq_zero_of_le hlen, List.drop_zero]
  | cons kv rest ih =>
    have h0 : kv.1 ∉ c.entries.map Prod.fst := hfresh kv (List.mem_cons_self _ _)
    rw [List.map_cons, List.nodup_cons] at hnd
    rw [setList_cons]
    have hset := set_fresh_entries c kv.1 kv.2 h0
    have hsetcap := set_capacity c kv.1 kv.2
    by_cases hfull : c.entries.length = c.capacity
    · -- the cache is full: the least-recently-used head is evicted
      rw [if_pos hfull] at hset
      obtain ⟨e, t, hct⟩ : ∃ e t, c.entries = e :: t := by
        cases hc : c.entries with
        | nil => rw [hc] at hfull; simp at hfull; omega
        | cons e t => exact ⟨e, t, rfl⟩
      have htail : c.entries.tail = t := by rw [hct]; rfl
      have hlen' : (c.set kv.1 kv.2).entries.length = c.capacity := by
        rw [hset, List.length_append, htail]
        have : c.entries.length = t.length + 1 := by rw [hct]; simp
        simp only [List.length_cons, List.length_nil]
        omega
      have hres := ih (c.set kv.1 kv.2) (by omega) (by omega)
        (by
          intro kv' hkv'
          rw [hset, htail, List.map_append, List.mem_append]
          rintro (ht | hk)
          · exact hfresh kv' (List.mem_cons_of_mem _ hkv')
              (by rw [hct, List.map_cons]; exact List.mem_cons_of_mem _ ht)
          · simp only [List.map_cons, List.map_nil, List.mem_cons,
              List.not_mem_nil, or_false] at hk
            exact hnd.1 (hk ▸ List.mem_map_of_mem Prod.fst hkv'))
        hnd.2
      rw [hres, hsetcap, hlen', hset, htail]
      have hd1 : c.capacity + rest.length - c.capacity = rest.length := by omega
      have hd2 : c.entries.length + (rest.length + 1) - c.capacity
          = rest.length + 1 := by omega
      rw [hd1, List.length_cons, hd2, hct]
      rw [List.cons_append, List.drop_succ_cons, List.append_assoc,
        List.singleton_append]
    · -- the cache is not full: plain insertion at the most-recently-used end
      rw [if_neg hfull] at hset
      have hlen' : (c.set kv.1 kv.2).entries.length = c.entries.length + 1 := by
        rw [hset, List.length_append]
        simp
      have hres := ih (c.set kv.1 kv.2) (by omega) (by omega)
        (by
          intro kv' hkv'
          rw [hset, List.map_append, List.mem_append]
          rintro (ht | hk)
          · exact hfresh kv' (List.mem_cons_of_mem _ hkv') ht
          · simp only [List.map_cons, List.map_nil, List.mem_cons,
              List.not_mem_nil, or_false] at hk
            exact hnd.1 (hk ▸ List.mem_map_of_mem Prod.fst hkv'))
        hnd.2
      rw [hres, hsetcap, hlen', hset]
      have hd : c.entries.length + 1 + rest.length
          = c.entries.length + (rest.length + 1) := by omega
      rw [List.length_cons, hd, List.append_assoc, List.singleton_append]

theorem applyOps_invariant (ops : List CacheOp) (c : BoundedMemoCache)
    (hcap : 0 < c.capacity) (hlen : c.entries.length ≤ c.capacity) :
    (c.applyOps ops).capacity = c.capacity ∧
      (c.applyOps ops).entries.length ≤ c.capacity := by
  induction ops generalizing c with
  | nil => exact ⟨rfl, hlen⟩
  | cons op rest ih =>
    have hstep : BoundedMemoCache.applyOps c (op :: rest)
        = BoundedMemoCache.applyOps (c.applyOp op) rest := rfl
    have hc : (c.applyOp op).capacity = c.capacity := by
      cases op with
      | opGet k => exact get_capacity c k
      | opSet k v => exact set_capacity c k v
    have hl : (c.applyOp op).entries.length ≤ c.capacity := by
      cases op with
      | opGet k =>
        show ((c.get k).2).entries.length ≤ c.capacity
        rw [get_length]
        exact hlen
      | opSet k v => exact set_length_le c k v hcap hlen
    have := ih (c.applyOp op) (by omega) (by omega)
    rw [hstep]
    exact ⟨by rw [this.1, hc], by have := this.2; omega⟩

/-- C1: for the BoundedMemoCache, starting from any cache state satisfying the
capacity invariant (in particular a freshly constructed cache), after every
prefix of an arbitrary sequence of `get` and `set` operations — which covers
any sequence of `set` calls with distinct keys, after each call — the number
of entries is at most the (unchanged) capacity. -/
theorem C1_capacity_bound (c : BoundedMemoCache) (ops : List CacheOp) (n : Nat)
    (hcap : 0 < c.capacity) (hlen : c.entries.length ≤ c.capacity) :
    (c.applyOps (ops.take n)).entries.length ≤ (c.applyOps (ops.take n)).capacity := by
  have h := applyOps_invariant (ops.take n) c hcap hlen
  rw [h.1]
  exact h.2

theorem C1_capacity_bound_witness :
    (0 < (mkCache 2).capacity ∧ (mkCache 2).entries.length ≤ (mkCache 2).capacity) ∧
      ((mkCache 2).applyOps (([CacheOp.opSet "a" 1, CacheOp.opSet "b" 2,
          CacheOp.opSet "c" 3, CacheOp.opGet "b"]).take 4)).entries.length ≤
        ((mkCache 2).applyOps (([CacheOp.opSet "a" 1, CacheOp.opSet "b" 2,
          CacheOp.opSet "c" 3, CacheOp.opGet "b"]).take 4)).capacity :=
  ⟨⟨by decide, by decide⟩,
    C1_capacity_bound (mkCache 2)
      [CacheOp.opSet "a" 1, CacheOp.opSet "b" 2,
        CacheOp.opSet "c" 3, CacheOp.opGet "b"] 4
      (by decide) (by decide)⟩

/-- C2: with capacity `N > 0`, after `N + 1` sequential `set` calls with
distinct keys (and no intervening `get`) starting from a fresh cache, the
first key is absent and every later key is present with its stored value:
exactly the least-recently-used entry was evicted. -/
theorem C2_eviction_correctness (N : Nat) (hN : 0 < N)
    (kvs : List (String × Int)) (hlen : kvs.length = N + 1)
    (hnd : (kvs.map Prod.fst).Nodup)
    (k1 : String) (v1 : Int) (hhead : kvs.head? = some (k1, v1)) :
    ((setList (mkCache N) kvs).get k1).1 = none ∧
      ∀ kv ∈ kvs.tail, ((setList (mkCache N) kvs).get kv.1).1 = some kv.2 := by
  obtain ⟨t, hkvs⟩ : ∃ t, kvs = (k1, v1) :: t := by
    cases kvs with
    | nil => simp at hhead
    | cons a t =>
      simp only [List.head?_cons, Option.some.injEq] at hhead
      exact ⟨t, by rw [hhead]⟩
  have hchar := setList_fresh kvs (mkCache N) (by simpa using hN)
    (by simp [mkCache]) (by simp [mkCache]) hnd
  have hdrop : (setList (mkCache N) kvs).entries = kvs.drop 1 := by
    rw [hchar]
    simp only [mkCache, List.nil_append, List.length_nil, Nat.zero_add, hlen]
    congr 1
    omega
  have htail : kvs.drop 1 = t := by rw [hkvs]; rfl
  have hkeys : kvs.map Prod.fst = k1 :: t.map Prod.fst := by
    rw [hkvs, List.map_cons]
  have hnd' : (k1 :: t.map Prod.fst).Nodup := hkeys ▸ hnd
  rw [List.nodup_cons] at hnd'
  constructor
  · have habs : lookupKey (setList (mkCache N) kvs).entries k1 = none := by
      rw [hdrop, htail, lookupKey_eq_none_iff]
      exact hnd'.1
    unfold BoundedMemoCache.get
    rw [habs]
  · intro kv hkv
    have hkv' : kv ∈ t := by rw [hkvs] at hkv; exact hkv
    have hfound : lookupKey (setList (mkCache N) kvs).entries kv.1 = some kv.2 := by
      rw [hdrop, htail]
      exact lookupKey_of_mem_nodup hnd'.2 hkv'
    unfold BoundedMemoCache.get
    rw [hfound]

theorem C2_eviction_correctness_witness :
    ((setList (mkCache 1) [("a", 1), ("b", 2)]).get "a").1 = none ∧
      ∀ kv ∈ [("a", (1 : Int)), ("b", 2)].tail,
        ((setList (mkCache 1) [("a", 1), ("b", 2)]).get kv.1).1 = some kv.2 :=
  C2_eviction_correctness 1 (by decide) [("a", 1), ("b", 2)] (by decide)
    (by decide) "a" 1 (by decide)

/-- C3: a stored falsy value is distinguishable from a miss.  After
`set k v` (for every value `v`, including `0`) a `get k` reports present with
exactly `v`; a `get` of a key that is not in the cache reports the explicit
absent marker `none` and leaves the cache unchanged. -/
theorem C3_miss_vs_falsy (c : BoundedMemoCache) (k : String) (v : Int)
    (hnd : (c.entries.map Prod.fst).Nodup)
    (c2 : BoundedMemoCache) (k2 : String)
    (habs : k2 ∉ c2.entries.map Prod.fst) :
    ((c.set k v).get k).1 = some v ∧ c2.get k2 = (none, c2) := by
  constructor
  · have hfound : lookupKey (c.set k v).entries k = some v := by
      by_cases hk : k ∈ c.entries.map Prod.fst
      · have hs : (lookupKey c.entries k).isSome = true :=
          (lookupKey_isSome_iff _ _).mpr hk
        unfold BoundedMemoCache.set
        rw [if_pos hs]
        show lookupKey (removeKey c.entries k ++ [(k, v)]) k = some v
        rw [lookupKey_append_of_not_mem _ (not_mem_removeKey_of_nodup hnd)]
        simp [lookupKey]
      · have hs : ¬(lookupKey c.entries k).isSome = true := by
          rw [lookupKey_isSome_iff]
          exact hk
        have h1 : k ∉ (c.entries.tail).map Prod.fst := by
          intro hmem
          obtain ⟨e, he, hek⟩ := List.mem_map.mp hmem
          exact hk (hek ▸ List.mem_map_of_mem Prod.fst (List.tail_subset _ he))
        unfold BoundedMemoCache.set
        rw [if_neg hs]
        split
        · show lookupKey (c.entries.tail ++ [(k, v)]) k = some v
          rw [lookupKey_append_of_not_mem _ h1]
          simp [lookupKey]
        · show lookupKey (c.entries ++ [(k, v)]) k = some v
          rw [lookupKey_append_of_not_mem _ hk]
          simp [lookupKey]
    unfold BoundedMemoCache.get
    rw [hfound]
  · have habs' : lookupKey c2.entries k2 = none :=
      (lookupKey_eq_none_iff _ _).mpr habs
    unfold BoundedMemoCache.get
    rw [habs']

theorem C3_miss_vs_falsy_witness :
    (((mkCache 2).set "a" 0).get "a").1 = some 0 ∧
      (mkCache 2).get "b" = (none, mkCache 2) :=
  C3_miss_vs_falsy (mkCache 2) "a" 0 (by decide) (mkCache 2) "b" (by decide)

/-! Part B: shallow embedding of `src/app.js`. -/

/-- A JavaScript number: either NaN or a finite value (finite values are
modelled by integers; the script only ever computes with integers). -/
inductive JSNumber where
  | nan
  | fin (v : Int)
deriving DecidableEq, Repr

/-- A JavaScript value, as far as `src/app.js` distinguishes them:
strings (as character lists), numbers, arrays, `null`, `undefined`,
booleans. -/
inductive JSValue where
  | vstr (s : List Char)
  | vnum (n : JSNumber)
  | varr (elems : List JSValue)
  | vnull
  | vundefined
  | vbool (b : Bool)
deriving Repr

/-- The two exception kinds thrown in `src/app.js` (`TypeError` and
`RangeError`), each carrying its message. -/
inductive JSError where
  | typeError (msg : String)
  | rangeError (msg : String)
deriving DecidableEq, Repr

/-- `error.message` of a thrown error. -/
def JSError.message : JSError → String
  | .typeError m => m
  | .rangeError m => m

/-- `config.maxInputLength` from `src/app.js` line 27. -/
def config.maxInputLength : Nat := 1000

/-- `config.timeout` from `src/app.js` line 29. -/
def config.timeout : Nat := 5000

/-- `config.retryAttempts` from `src/app.js` line 30. -/
def config.retryAttempts : Nat := 3

/-- The character class `\s` of a JavaScript regular expression (also the set
JavaScript `String.prototype.trim` strips): WhiteSpace plus LineTerminator. -/
def isJSWhitespace (c : Char) : Bool :=
  c == ' ' || c == '\t' || c == '\n' || c == '\r' ||
    c.toNat == 0x0B || c.toNat == 0x0C ||
    c.toNat == 0x00A0 || c.toNat == 0x1680 ||
    (0x2000 ≤ c.toNat && c.toNat ≤ 0x200A) ||
    c.toNat == 0x2028 || c.toNat == 0x2029 || c.toNat == 0x202F ||
    c.toNat == 0x205F || c.toNat == 0x3000 || c.toNat == 0xFEFF

/-- One character of the class `[a-zA-Z0-9\s\-_]` of
`config.allowedChars` (`src/app.js` line 28). -/
def isAllowedChar (c : Char) : Bool :=
  (65 ≤ c.toNat && c.toNat ≤ 90) || (97 ≤ c.toNat && c.toNat ≤ 122) ||
    (48 ≤ c.toNat && c.toNat ≤ 57) || isJSWhitespace c ||
    c == '-' || c == '_'

/-- `config.allowedChars.test(s)` for the anchored regex
`^[a-zA-Z0-9\s\-_]+$`: the string is non-empty and every character belongs to
the class. -/
def config.allowedCharsTest (s : List Char) : Bool :=
  !s.isEmpty && s.all isAllowedChar

/-- JavaScript `String.prototype.trim`: strip leading and trailing
whitespace. -/
def jsTrim (s : List Char) : List Char :=
  ((s.dropWhile isJSWhitespace).reverse.dropWhile isJSWhitespace).reverse

/-- JavaScript `String.prototype.toUpperCase` on one character, for the
characters the validated inputs can contain (ASCII letters map to upper case,
everything else in the allowed class is unchanged). -/
def jsToUpperChar (c : Char) : Char :=
  if 97 ≤ c.toNat ∧ c.toNat ≤ 122 then Char.ofNat (c.toNat - 32) else c

/-- `InputValidator.validateString` (`src/app.js` lines 44-60): a thrown
`TypeError`/`RangeError` is an `Except.error`. -/
def InputValidator.validateString (input : JSValue) (fieldName : String) :
    Except JSError Unit :=
  match input with
  | .vstr s =>
    if s.length = 0 then
      .error (.rangeError (fieldName ++ " cannot be empty"))
    else if config.maxInputLength < s.length then
      .error (.rangeError (fieldName ++ " is too long (max: "
        ++ toString config.maxInputLength ++ ")"))
    else if !config.allowedCharsTest s then
      .error (.rangeError (fieldName ++ " contains invalid characters"))
    else
      .ok ()
  | _ => .error (.typeError (fieldName ++ " must be a string"))

/-- `InputValidator.validateArray` (`src/app.js` lines 69-77). -/
def InputValidator.validateArray (input : JSValue) (fieldName : String) :
    Except JSError Unit :=
  match input with
  | .varr elems =>
    if elems.length = 0 then
      .error (.rangeError (fieldName ++ " cannot be empty"))
    else
      .ok ()
  | _ => .error (.typeError (fieldName ++ " must be an array"))

/-- The element-check loop of `QualityDataProcessor.processArray`
(`src/app.js` lines 128-132): throw at the first element that is not a
number, or is NaN.  `i` is the index of the first element of the remaining
list. -/
def checkElements : List JSValue → Nat → Except JSError Unit
  | [], _ => .ok ()
  | x :: rest, i =>
    match x with
    | .vnum (.fin _) => checkElements rest (i + 1)
    | _ => .error (.typeError ("Element at index " ++ toString i
        ++ " is not a valid number"))

/-- `item => item * 2` (`src/app.js` line 134).  Only ever applied after
`checkElements` succeeded, so only the finite-number case is reachable; the
other branches pick a fixed value. -/
def double2 : JSValue → JSValue
  | .vnum (.fin v) => .vnum (.fin (2 * v))
  | _ => .vnum .nan

/-- The result object of `src/app.js` (`ProcessResult` typedef): `success`,
`data`, and the optional `error` message. -/
structure ProcessResult where
  success : Bool
  data : JSValue
  error : Option String
deriving Repr

/-- The `try` block of `QualityDataProcessor.processString`
(`src/app.js` lines 99-108): validate, then trim and uppercase.  The final
branch is unreachable (the validator rejects every non-string) and re-throws
the validator's own error. -/
def QualityDataProcessor.processStringBody (input : JSValue) :
    Except JSError (List Char) :=
  match InputValidator.validateString input "input" with
  | .error e => .error e
  | .ok _ =>
    match input with
    | .vstr s => .ok ((jsTrim s).map jsToUpperChar)
    | _ => .error (.typeError ("input" ++ " must be a string"))

/-- `QualityDataProcessor.processString` (`src/app.js` lines 98-116): the
`try/catch` produces a result object; `processedCount` (the explicit `Nat`
state) is incremented exactly on the success path. -/
def QualityDataProcessor.processString (count : Nat) (input : JSValue) :
    ProcessResult × Nat :=
  match QualityDataProcessor.processStringBody input with
  | .ok s => (⟨true, .vstr s, none⟩, count + 1)
  | .error e => (⟨false, .vnull, some e.message⟩, count)

/-- The `try` block of `QualityDataProcessor.processArray`
(`src/app.js` lines 124-140): validate, check every element, then double
element-wise.  The final branch is unreachable (the validator rejects every
non-array) and re-throws the validator's own error. -/
def QualityDataProcessor.processArrayBody (input : JSValue) :
    Except JSError (List JSValue) :=
  match InputValidator.validateArray input "data" with
  | .error e => .error e
  | .ok _ =>
    match input with
    | .varr elems =>
      match checkElements elems 0 with
      | .error e => .error e
      | .ok _ => .ok (elems.map double2)
    | _ => .error (.typeError ("data" ++ " must be an array"))

/-- `QualityDataProcessor.processArray` (`src/app.js` lines 123-148). -/
def QualityDataProcessor.processArray (count : Nat) (input : JSValue) :
    ProcessResult × Nat :=
  match QualityDataProcessor.processArrayBody input with
  | .ok elems => (⟨true, .varr elems, none⟩, count + 1)
  | .error e => (⟨false, .vnull, some e.message⟩, count)

/-- `QualityDataProcessor.getProcessedCount` (`src/app.js` lines 154-156). -/
def QualityDataProcessor.getProcessedCount (count : Nat) : Nat :=
  count

/-- `QualityDataProcessor.resetCount` (`src/app.js` lines 161-163). -/
def QualityDataProcessor.resetCount (_count : Nat) : Nat :=
  0

/-- The observable state of a `QualityApplication` (`src/app.js` lines
169-239): its processor's `processedCount` and the `isRunning` flag. -/
structure QualityApplication where
  processedCount : Nat
  isRunning : Bool
deriving DecidableEq, Repr

/-- The `QualityApplication` constructor (`src/app.js` lines 173-176). -/
def QualityApplication.init : QualityApplication :=
  ⟨0, false⟩

/-- `QualityApplication.start` (`src/app.js` lines 182-189): the new state
together with the thrown error message, if any (a throw leaves the object
unchanged). -/
def QualityApplication.start (a : QualityApplication) :
    QualityApplication × Option String :=
  if a.isRunning then (a, some "Application is already running")
  else ({ a with isRunning := true }, none)

/-- `QualityApplication.stop` (`src/app.js` lines 195-202). -/
def QualityApplication.stop (a : QualityApplication) :
    QualityApplication × Option String :=
  if !a.isRunning then (a, some "Application is not running")
  else ({ a with isRunning := false }, none)

/-- `QualityApplication.run` (`src/app.js` lines 208-238): guard on
`isRunning`, then process the fixed string and array inputs (console output
is not modelled); neither processor call can throw, so the inner `try/catch`
rethrows nothing. -/
def QualityApplication.run (a : QualityApplication) :
    QualityApplication × Option String :=
  if !a.isRunning then (a, some "Application must be started first")
  else
    let r1 := QualityDataProcessor.processString a.processedCount
      (.vstr "Hello World".toList)
    let r2 := QualityDataProcessor.processArray r1.2
      (.varr [.vnum (.fin 1), .vnum (.fin 2), .vnum (.fin 3),
        .vnum (.fin 4), .vnum (.fin 5)])
    ({ a with processedCount := r2.2 }, none)

theorem string_length_append (s t : String) :
    (s ++ t).length = s.length + t.length := by
  show (s ++ t).data.length = s.data.length + t.data.length
  rw [String.data_append, List.length_append]

theorem validateString_ok {s : List Char} (f : String) (h1 : s ≠ [])
    (h2 : s.length ≤ config.maxInputLength)
    (h3 : s.all isAllowedChar = true) :
    InputValidator.validateString (.vstr s) f = .ok () := by
  have h0 : ¬s.length = 0 := by
    cases s with
    | nil => exact absurd rfl h1
    | cons a t => simp
  have hlt : ¬config.maxInputLength < s.length := by omega
  have hne : s.isEmpty = false := by
    cases s with
    | nil => exact absurd rfl h1
    | cons a t => rfl
  have hac : ¬(!config.allowedCharsTest s) = true := by
    unfold config.allowedCharsTest
    rw [hne, h3]
    simp
  simp only [InputValidator.validateString]
  rw [if_neg h0, if_neg hlt, if_neg hac]

theorem validateString_ok_elim {input : JSValue} {f : String}
    (h : InputValidator.validateString input f = .ok ()) :
    ∃ s, input = .vstr s ∧ s ≠ [] ∧ s.length ≤ config.maxInputLength ∧
      s.all isAllowedChar = true := by
  cases input with
  | vstr s =>
    refine ⟨s, rfl, ?_⟩
    simp only [InputValidator.validateString] at h
    split_ifs at h with h0 hlt hac
    have hall : config.allowedCharsTest s = true := by
      cases hc : config.allowedCharsTest s with
      | true => rfl
      | false => rw [hc] at hac; simp at hac
    unfold config.allowedCharsTest at hall
    rw [Bool.and_eq_true] at hall
    refine ⟨?_, by omega, hall.2⟩
    intro hnil
    rw [hnil] at h0
    simp at h0
  | vnum n => simp [InputValidator.validateString] at h
  | varr elems => simp [InputValidator.validateString] at h
  | vnull => simp [InputValidator.validateString] at h
  | vundefined => simp [InputValidator.validateString] at h
  | vbool b => simp [InputValidator.validateString] at h

theorem validateString_error_msg {input : JSValue} {f : String} {e : JSError}
    (h : InputValidator.validateString input f = .error e) :
    0 < e.message.length := by
  have hlen : ∀ t : String, 0 < t.length → 0 < (JSError.message (.rangeError (f ++ t))).length := by
    intro t ht
    show 0 < (f ++ t).length
    rw [string_length_append]
    omega
  cases input with
  | vstr s =>
    simp only [InputValidator.validateString] at h
    split_ifs at h with h0 hlt hac <;> rw [← (Except.error.injEq _ _).mp h]
    · exact hlen " cannot be empty" (by decide)
    · show 0 < (f ++ " is too long (max: " ++ toString config.maxInputLength
        ++ ")").length
      rw [string_length_append, string_length_append, string_length_append]
      have : 0 < (" is too long (max: " : String).length := by decide
      omega
    · exact hlen " contains invalid characters" (by decide)
  | vnum n =>
    simp only [InputValidator.validateString, Except.error.injEq] at h
    rw [← h]
    show 0 < (f ++ " must be a string").length
    rw [string_length_append]
    have : 0 < (" must be a string" : String).length := by decide
    omega
  | varr elems =>
    simp only [InputValidator.validateString, Except.error.injEq] at h
    rw [← h]
    show 0 < (f ++ " must be a string").length
    rw [string_length_append]
    have : 0 < (" must be a string" : String).length := by decide
    omega
  | vnull =>
    simp only [InputValidator.validateString, Except.error.injEq] at h
    rw [← h]
    show 0 < (f ++ " must be a string").length
    rw [string_length_append]
    have : 0 < (" must be a string" : String).length := by decide
    omega
  | vundefined =>
    simp only [InputValidator.validateString, Except.error.injEq] at h
    rw [← h]
    show 0 < (f ++ " must be a string").length
    rw [string_length_append]
    have : 0 < (" must be a string" : String).length := by decide
    omega
  | vbool b =>
    simp only [InputValidator.validateString, Except.error.injEq] at h
    rw [← h]
    show 0 < (f ++ " must be a string").length
    rw [string_length_append]
    have : 0 < (" must be a string" : String).length := by decide
    omega

theorem checkElements_ok {ds : List JSValue}
    (h : ∀ x ∈ ds, ∃ v : Int, x = .vnum (.fin v)) :
    ∀ i, checkElements ds i = .ok () := by
  induction ds with
  | nil => intro i; rfl
  | cons x rest ih =>
    intro i
    obtain ⟨v, hv⟩ := h x (List.mem_cons_self _ _)
    subst hv
    exact ih (fun y hy => h y (List.mem_cons_of_mem _ hy)) (i + 1)

theorem checkElements_ok_elim {ds : List JSValue} :
    ∀ i, checkElements ds i = .ok () →
      ∀ x ∈ ds, ∃ v : Int, x = .vnum (.fin v) := by
  induction ds with
  | nil => intro i _ x hx; simp at hx
  | cons y rest ih =>
    intro i h x hx
    match y, h with
    | .vnum (.fin v), h =>
      rcases List.mem_cons.mp hx with h1 | h2
      · exact ⟨v, h1⟩
      · exact ih (i + 1) h x h2

theorem checkElements_error_msg {ds : List JSValue} :
    ∀ {i : Nat} {e : JSError}, checkElements ds i = .error e →
      0 < e.message.length := by
  induction ds with
  | nil => intro i e h; simp [checkElements] at h
  | cons y rest ih =>
    intro i e h
    match y, h with
    | .vnum (.fin v), h => exact ih h
    | .vnum .nan, h =>
      rw [show e = .typeError ("Element at index " ++ toString i
          ++ " is not a valid number") from ((Except.error.injEq _ _).mp h).symm]
      show 0 < ("Element at index " ++ toString i
        ++ " is not a valid number").length
      rw [string_length_append, string_length_append]
      have : 0 < ("Element at index " : String).length := by decide
      omega
    | .vstr s, h =>
      rw [show e = .typeError ("Element at index " ++ toString i
          ++ " is not a valid number") from ((Except.error.injEq _ _).mp h).symm]
      show 0 < ("Element at index " ++ toString i
        ++ " is not a valid number").length
      rw [string_length_append, string_length_append]
      have : 0 < ("Element at index " : String).length := by decide
      omega
    | .varr es, h =>
      rw [show e = .typeError ("Element at index " ++ toString i
          ++ " is not a valid number") from ((Except.error.injEq _ _).mp h).symm]
      show 0 < ("Element at index " ++ toString i
        ++ " is not a valid number").length
      rw [string_length_append, string_length_append]
      have : 0 < ("Element at index " : String).length := by decide
      omega
    | .vnull, h =>
      rw [show e = .typeError ("Element at index " ++ toString i
          ++ " is not a valid number") from ((Except.error.injEq _ _).mp h).symm]
      show 0 < ("Element at index " ++ toString i
        ++ " is not a valid number").length
      rw [string_length_append, string_length_append]
      have : 0 < ("Element at index " : String).length := by decide
      omega
    | .vundefined, h =>
      rw [show e = .typeError ("Element at index " ++ toString i
          ++ " is not a valid number") from ((Except.error.injEq _ _).mp h).symm]
      show 0 < ("Element at index " ++ toString i
        ++ " is not a valid number").length
      rw [string_length_append, string_length_append]
      have : 0 < ("Element at index " : String).length := by decide
      omega
    | .vbool b, h =>
      rw [show e = .typeError ("Element at index " ++ toString i
          ++ " is not a valid number") from ((Except.error.injEq _ _).mp h).symm]
      show 0 < ("Element at index " ++ toString i
        ++ " is not a valid number").length
      rw [string_length_append, string_length_append]
      have : 0 < ("Element at index " : String).length := by decide
      omega

/-- C4: every string that passes validation (non-empty, at most 1000
characters, all characters in the allowed class) is processed successfully,
and the returned data is the input trimmed and converted to upper case. -/
theorem C4_processString_valid (count : Nat) (s : List Char) (h1 : s ≠ [])
    (h2 : s.length ≤ 1000) (h3 : ∀ c ∈ s, isAllowedChar c = true) :
    QualityDataProcessor.processString count (.vstr s)
      = (⟨true, .vstr ((jsTrim s).map jsToUpperChar), none⟩, count + 1) := by
  have h2' : s.length ≤ config.maxInputLength := by
    unfold config.maxInputLength
    omega
  have h3' : s.all isAllowedChar = true := List.all_eq_true.mpr h3
  have hbody : QualityDataProcessor.processStringBody (.vstr s)
      = .ok ((jsTrim s).map jsToUpperChar) := by
    simp only [QualityDataProcessor.processStringBody,
      validateString_ok "input" h1 h2' h3']
  simp only [QualityDataProcessor.processString, hbody]

theorem C4_processString_valid_witness :
    QualityDataProcessor.processString 0 (.vstr "Hello World".toList)
      = (⟨true, .vstr ((jsTrim "Hello World".toList).map jsToUpperChar), none⟩,
          1) :=
  C4_processString_valid 0 "Hello World".toList (by decide) (by decide)
    (by decide)

/-- C5: every non-empty array whose elements are all (non-NaN) numbers is
processed successfully; the returned data is the element-wise doubling of the
input — same length, and at every index twice the input element. -/
theorem C5_processArray_valid (count : Nat) (ds : List JSValue) (hne : ds ≠ [])
    (hnum : ∀ x ∈ ds, ∃ v : Int, x = .vnum (.fin v)) :
    (QualityDataProcessor.processArray count (.varr ds)).1.success = true ∧
    (QualityDataProcessor.processArray count (.varr ds)).1.data
      = .varr (ds.map double2) ∧
    (ds.map double2).length = ds.length ∧
    ∀ (i : Nat) (v : Int), ds[i]? = some (.vnum (.fin v)) →
      (ds.map double2)[i]? = some (.vnum (.fin (2 * v))) := by
  have h0 : ¬ds.length = 0 := fun h => hne (List.length_eq_zero.mp h)
  have hchk := checkElements_ok hnum 0
  have hbody : QualityDataProcessor.processArrayBody (.varr ds)
      = .ok (ds.map double2) := by
    simp only [QualityDataProcessor.processArrayBody,
      InputValidator.validateArray, if_neg h0, hchk]
  refine ⟨?_, ?_, by simp, ?_⟩
  · simp [QualityDataProcessor.processArray, hbody]
  · simp [QualityDataProcessor.processArray, hbody]
  · intro i v hv
    rw [List.getElem?_map, hv]
    rfl

theorem C5_processArray_valid_witness :
    (QualityDataProcessor.processArray 0 (.varr [.vnum (.fin 3)])).1.success
        = true ∧
    (QualityDataProcessor.processArray 0 (.varr [.vnum (.fin 3)])).1.data
      = .varr ([JSValue.vnum (.fin 3)].map double2) ∧
    ([JSValue.vnum (.fin 3)].map double2).length
      = [JSValue.vnum (.fin 3)].length ∧
    ∀ (i : Nat) (v : Int),
      [JSValue.vnum (.fin 3)][i]? = some (.vnum (.fin v)) →
        ([JSValue.vnum (.fin 3)].map double2)[i]?
          = some (.vnum (.fin (2 * v))) :=
  C5_processArray_valid 0 [.vnum (.fin 3)] (by
    intro h
    exact absurd (congrArg List.length h) (by decide))
    (fun x hx => ⟨3, List.mem_singleton.mp hx⟩)

theorem processStringBody_ok_valid {input : JSValue} {s : List Char}
    (h : QualityDataProcessor.processStringBody input = .ok s) :
    ∃ t, input = .vstr t ∧ t ≠ [] ∧ t.length ≤ config.maxInputLength ∧
      t.all isAllowedChar = true := by
  cases hv : InputValidator.validateString input "input" with
  | error e =>
    exfalso
    simp only [QualityDataProcessor.processStringBody, hv] at h
    exact Except.noConfusion h
  | ok u =>
    cases u
    exact validateString_ok_elim hv

theorem processStringBody_error_msg {input : JSValue} {e : JSError}
    (h : QualityDataProcessor.processStringBody input = .error e) :
    0 < e.message.length := by
  cases hv : InputValidator.validateString input "input" with
  | error e0 =>
    simp only [QualityDataProcessor.processStringBody, hv,
      Except.error.injEq] at h
    exact h ▸ validateString_error_msg hv
  | ok u =>
    cases u
    obtain ⟨t, ht, _⟩ := validateString_ok_elim hv
    subst ht
    simp only [QualityDataProcessor.processStringBody, hv] at h
    exact Except.noConfusion h

theorem processArrayBody_ok_valid {input : JSValue} {ds : List JSValue}
    (h : QualityDataProcessor.processArrayBody input = .ok ds) :
    ∃ es, input = .varr es ∧ es ≠ [] ∧
      ∀ x ∈ es, ∃ v : Int, x = .vnum (.fin v) := by
  cases input with
  | varr es =>
    refine ⟨es, rfl, ?_, ?_⟩
    · intro hnil
      subst hnil
      simp [QualityDataProcessor.processArrayBody,
        InputValidator.validateArray] at h
    · cases hv : InputValidator.validateArray (.varr es) "data" with
      | error e =>
        exfalso
        simp only [QualityDataProcessor.processArrayBody, hv] at h
        exact Except.noConfusion h
      | ok u =>
        cases u
        cases hc : checkElements es 0 with
        | error e =>
          exfalso
          simp only [QualityDataProcessor.processArrayBody, hv, hc] at h
          exact Except.noConfusion h
        | ok u2 =>
          cases u2
          exact checkElements_ok_elim 0 hc
  | vstr s => simp [QualityDataProcessor.processArrayBody,
      InputValidator.validateArray] at h
  | vnum n => simp [QualityDataProcessor.processArrayBody,
      InputValidator.validateArray] at h
  | vnull => simp [QualityDataProcessor.processArrayBody,
      InputValidator.validateArray] at h
  | vundefined => simp [QualityDataProcessor.processArrayBody,
      InputValidator.validateArray] at h
  | vbool b => simp [QualityDataProcessor.processArrayBody,
      InputValidator.validateArray] at h

theorem validateArray_error_msg {input : JSValue} {f : String} {e : JSError}
    (h : InputValidator.validateArray input f = .error e) :
    0 < e.message.length := by
  have htype : (Except.error (JSError.typeError (f ++ " must be an array"))
      : Except JSError Unit) = .error e → 0 < e.message.length := by
    intro hh
    rw [← (Except.error.injEq _ _).mp hh]
    show 0 < (f ++ " must be an array").length
    rw [string_length_append]
    have : 0 < (" must be an array" : String).length := by decide
    omega
  cases input with
  | varr es =>
    simp only [InputValidator.validateArray] at h
    split_ifs at h with h0
    rw [← (Except.error.injEq _ _).mp h]
    show 0 < (f ++ " cannot be empty").length
    rw [string_length_append]
    have : 0 < (" cannot be empty" : String).length := by decide
    omega
  | vstr s => exact htype h
  | vnum n => exact htype h
  | vnull => exact htype h
  | vundefined => exact htype h
  | vbool b => exact htype h

theorem processArrayBody_error_msg {input : JSValue} {e : JSError}
    (h : QualityDataProcessor.processArrayBody input = .error e) :
    0 < e.message.length := by
  cases hv : InputValidator.validateArray input "data" with
  | error e0 =>
    simp only [QualityDataProcessor.processArrayBody, hv,
      Except.error.injEq] at h
    exact h ▸ validateArray_error_msg hv
  | ok u =>
    cases u
    cases input with
    | varr es =>
      cases hc : checkElements es 0 with
      | error e0 =>
        simp only [QualityDataProcessor.processArrayBody, hv, hc,
          Except.error.injEq] at h
        exact h ▸ checkElements_error_msg hc
      | ok u2 =>
        cases u2
        exfalso
        simp only [QualityDataProcessor.processArrayBody, hv, hc] at h
        exact Except.noConfusion h
    | vstr s => simp [InputValidator.validateArray] at hv
    | vnum n => simp [InputValidator.validateArray] at hv
    | vnull => simp [InputValidator.validateArray] at hv
    | vundefined => simp [InputValidator.validateArray] at hv
    | vbool b => simp [InputValidator.validateArray] at hv

/-- C6: `processString` and `processArray` always return a result object (no
exception escapes the `try/catch`): whenever the result is not a success —
which is the case on every invalid input (wrong type, empty, too long,
disallowed characters, non-number/NaN element), since success implies the
input was valid — the result carries `success = false`, `data = null`, and a
non-empty error message string. -/
theorem C6_failure_shape (count : Nat) (input : JSValue) :
    ((QualityDataProcessor.processString count input).1.success = true →
      ∃ t, input = .vstr t ∧ t ≠ [] ∧ t.length ≤ config.maxInputLength ∧
        t.all isAllowedChar = true) ∧
    ((QualityDataProcessor.processString count input).1.success = false →
      (QualityDataProcessor.processString count input).1.data = .vnull ∧
      ∃ msg, (QualityDataProcessor.processString count input).1.error
          = some msg ∧ 0 < msg.length) ∧
    ((QualityDataProcessor.processArray count input).1.success = true →
      ∃ es, input = .varr es ∧ es ≠ [] ∧
        ∀ x ∈ es, ∃ v : Int, x = .vnum (.fin v)) ∧
    ((QualityDataProcessor.processArray count input).1.success = false →
      (QualityDataProcessor.processArray count input).1.data = .vnull ∧
      ∃ msg, (QualityDataProcessor.processArray count input).1.error
          = some msg ∧ 0 < msg.length) := by
  refine ⟨?_, ?_, ?_, ?_⟩
  · intro hs
    cases hb : QualityDataProcessor.processStringBody input with
    | ok s => exact processStringBody_ok_valid hb
    | error e => simp [QualityDataProcessor.processString, hb] at hs
  · intro hs
    cases hb : QualityDataProcessor.processStringBody input with
    | ok s => simp [QualityDataProcessor.processString, hb] at hs
    | error e =>
      refine ⟨by simp [QualityDataProcessor.processString, hb], e.message,
        by simp [QualityDataProcessor.processString, hb],
        processStringBody_error_msg hb⟩
  · intro hs
    cases hb : QualityDataProcessor.processArrayBody input with
    | ok es => exact processArrayBody_ok_valid hb
    | error e => simp [QualityDataProcessor.processArray, hb] at hs
  · intro hs
    cases hb : QualityDataProcessor.processArrayBody input with
    | ok es => simp [QualityDataProcessor.processArray, hb] at hs
    | error e =>
      refine ⟨by simp [QualityDataProcessor.processArray, hb], e.message,
        by simp [QualityDataProcessor.processArray, hb],
        processArrayBody_error_msg hb⟩

theorem C6_failure_shape_witness :
    ((QualityDataProcessor.processString 0 .vnull).1.data = .vnull ∧
      ∃ msg, (QualityDataProcessor.processString 0 .vnull).1.error
          = some msg ∧ 0 < msg.length) ∧
    ((QualityDataProcessor.processArray 0 .vnull).1.data = .vnull ∧
      ∃ msg, (QualityDataProcessor.processArray 0 .vnull).1.error
          = some msg ∧ 0 < msg.length) :=
  ⟨(C6_failure_shape 0 .vnull).2.1 (by decide),
    (C6_failure_shape 0 .vnull).2.2.2 (by decide)⟩

/-- C7 counterexample: the claim that `processString` leaves the processor's
observable state unchanged is false — on the valid input `"a"` with
`processedCount = 0`, the count after the call is `1`, not `0`. -/
theorem C7_pure_counterexample :
    (QualityDataProcessor.processString 0 (.vstr ['a'])).2 ≠ 0 := by
  decide

/-- C7 (amended): `processString` and `processArray` change no observable
processor state other than `processedCount`: a failing call leaves the state
exactly as it was, and a successful call changes only `processedCount`,
incrementing it by one. -/
theorem C7_frame_amended (count : Nat) (input : JSValue) :
    ((QualityDataProcessor.processString count input).1.success = false →
      (QualityDataProcessor.processString count input).2 = count) ∧
    ((QualityDataProcessor.processString count input).1.success = true →
      (QualityDataProcessor.processString count input).2 = count + 1) ∧
    ((QualityDataProcessor.processArray count input).1.success = false →
      (QualityDataProcessor.processArray count input).2 = count) ∧
    ((QualityDataProcessor.processArray count input).1.success = true →
      (QualityDataProcessor.processArray count input).2 = count + 1) := by
  refine ⟨?_, ?_, ?_, ?_⟩ <;> intro hs
  · cases hb : QualityDataProcessor.processStringBody input with
    | ok s => simp [QualityDataProcessor.processString, hb] at hs
    | error e => simp [QualityDataProcessor.processString, hb]
  · cases hb : QualityDataProcessor.processStringBody input with
    | ok s => simp [QualityDataProcessor.processString, hb]
    | error e => simp [QualityDataProcessor.processString, hb] at hs
  · cases hb : QualityDataProcessor.processArrayBody input with
    | ok es => simp [QualityDataProcessor.processArray, hb] at hs
    | error e => simp [QualityDataProcessor.processArray, hb]
  · cases hb : QualityDataProcessor.processArrayBody input with
    | ok es => simp [QualityDataProcessor.processArray, hb]
    | error e => simp [QualityDataProcessor.processArray, hb] at hs

theorem C7_frame_amended_witness :
    (QualityDataProcessor.processString 0 .vundefined).2 = 0 ∧
      (QualityDataProcessor.processArray 0 .vundefined).2 = 0 :=
  ⟨(C7_frame_amended 0 .vundefined).1 (by decide),
    (C7_frame_amended 0 .vundefined).2.2.1 (by decide)⟩

/-- C8: `processedCount` — as reported by `getProcessedCount` — increments by
exactly one when `processString` or `processArray` returns `success = true`,
and is unchanged when either returns `success = false`. -/
theorem C8_count_increment (count : Nat) (input : JSValue) :
    ((QualityDataProcessor.processString count input).1.success = true →
      QualityDataProcessor.getProcessedCount
          (QualityDataProcessor.processString count input).2
        = QualityDataProcessor.getProcessedCount count + 1) ∧
    ((QualityDataProcessor.processString count input).1.success = false →
      QualityDataProcessor.getProcessedCount
          (QualityDataProcessor.processString count input).2
        = QualityDataProcessor.getProcessedCount count) ∧
    ((QualityDataProcessor.processArray count input).1.success = true →
      QualityDataProcessor.getProcessedCount
          (QualityDataProcessor.processArray count input).2
        = QualityDataProcessor.getProcessedCount count + 1) ∧
    ((QualityDataProcessor.processArray count input).1.success = false →
      QualityDataProcessor.getProcessedCount
          (QualityDataProcessor.processArray count input).2
        = QualityDataProcessor.getProcessedCount count) := by
  refine ⟨?_, ?_, ?_, ?_⟩ <;> intro hs
  · cases hb : QualityDataProcessor.processStringBody input with
    | ok s => simp [QualityDataProcessor.processString,
        QualityDataProcessor.getProcessedCount, hb]
    | error e => simp [QualityDataProcessor.processString, hb] at hs
  · cases hb : QualityDataProcessor.processStringBody input with
    | ok s => simp [QualityDataProcessor.processString, hb] at hs
    | error e => simp [QualityDataProcessor.processString,
        QualityDataProcessor.getProcessedCount, hb]
  · cases hb : QualityDataProcessor.processArrayBody input with
    | ok es => simp [QualityDataProcessor.processArray,
        QualityDataProcessor.getProcessedCount, hb]
    | error e => simp [QualityDataProcessor.processArray, hb] at hs
  · cases hb : QualityDataProcessor.processArrayBody input with
    | ok es => simp [QualityDataProcessor.processArray, hb] at hs
    | error e => simp [QualityDataProcessor.processArray,
        QualityDataProcessor.getProcessedCount, hb]

theorem C8_count_increment_witness :
    QualityDataProcessor.getProcessedCount
        (QualityDataProcessor.processString 0 (.vstr ['b'])).2
      = QualityDataProcessor.getProcessedCount 0 + 1 ∧
    QualityDataProcessor.getProcessedCount
        (QualityDataProcessor.processArray 0 (.vbool true)).2
      = QualityDataProcessor.getProcessedCount 0 :=
  ⟨(C8_count_increment 0 (.vstr ['b'])).1 (by decide),
    (C8_count_increment 0 (.vbool true)).2.2.2 (by decide)⟩

/-- C9: a non-empty string of at most 1000 characters consisting only of
whitespace passes `InputValidator.validateString` (the allowed-characters
class contains `\s`), and `processString` on it succeeds with data the empty
string — while the empty string itself is rejected with a `RangeError`. -/
theorem C9_whitespace_only (count : Nat) (s : List Char) (h1 : s ≠ [])
    (h2 : s.length ≤ 1000) (h3 : ∀ c ∈ s, isJSWhitespace c = true) :
    InputValidator.validateString (.vstr s) "input" = .ok () ∧
    QualityDataProcessor.processString count (.vstr s)
      = (⟨true, .vstr [], none⟩, count + 1) ∧
    InputValidator.validateString (.vstr []) "input"
      = .error (.rangeError "input cannot be empty") := by
  have hall : ∀ c ∈ s, isAllowedChar c = true := by
    intro c hc
    unfold isAllowedChar
    rw [h3 c hc]
    simp
  have h2' : s.length ≤ config.maxInputLength := by
    unfold config.maxInputLength
    omega
  have hok := validateString_ok "input" h1 h2' (List.all_eq_true.mpr hall)
  have h4 : s.dropWhile isJSWhitespace = [] :=
    List.dropWhile_eq_nil_iff.mpr (fun x hx => by rw [h3 x hx])
  have htrim : jsTrim s = [] := by
    unfold jsTrim
    rw [h4]
    rfl
  refine ⟨hok, ?_, by rfl⟩
  have hbody : QualityDataProcessor.processStringBody (.vstr s) = .ok [] := by
    simp only [QualityDataProcessor.processStringBody, hok, htrim,
      List.map_nil]
  simp only [QualityDataProcessor.processString, hbody]

theorem C9_whitespace_only_witness :
    InputValidator.validateString (.vstr [' ', '\t']) "input" = .ok () ∧
    QualityDataProcessor.processString 0 (.vstr [' ', '\t'])
      = (⟨true, .vstr [], none⟩, 1) ∧
    InputValidator.validateString (.vstr []) "input"
      = .error (.rangeError "input cannot be empty") :=
  C9_whitespace_only 0 [' ', '\t'] (by decide) (by decide) (by decide)

/-- C10: the `QualityApplication` lifecycle on `isRunning`: `start` throws
exactly when `isRunning` is already `true` and otherwise sets it to `true`;
`stop` throws exactly when `isRunning` is `false` and otherwise sets it to
`false`; `run` throws when `isRunning` is `false`; and every throwing call
leaves the application state unchanged. -/
theorem C10_lifecycle (a : QualityApplication) :
    (a.start.2 ≠ none ↔ a.isRunning = true) ∧
    (a.isRunning = true → a.start = (a, some "Application is already running")) ∧
    (a.isRunning = false → a.start = ({ a with isRunning := true }, none)) ∧
    (a.stop.2 ≠ none ↔ a.isRunning = false) ∧
    (a.isRunning = false → a.stop = (a, some "Application is not running")) ∧
    (a.isRunning = true → a.stop = ({ a with isRunning := false }, none)) ∧
    (a.isRunning = false →
      a.run = (a, some "Application must be started first")) := by
  cases h : a.isRunning <;>
    simp [QualityApplication.start, QualityApplication.stop,
      QualityApplication.run, h]

theorem C10_lifecycle_witness :
    QualityApplication.init.start = (⟨0, true⟩, none) ∧
    (QualityApplication.mk 0 true).stop = (⟨0, false⟩, none) ∧
    QualityApplication.init.run
      = (QualityApplication.init, some "Application must be started first") :=
  ⟨(C10_lifecycle QualityApplication.init).2.2.1 rfl,
    (C10_lifecycle (QualityApplication.mk 0 true)).2.2.2.2.2.1 rfl,
    (C10_lifecycle QualityApplication.init).2.2.2.2.2.2 rfl⟩
